import Mathlib

set_option maxRecDepth 4000

/-!
Verification development for the `pg_named_args` macro crate.

The central piece of the crate is `rewrite_query` in
`pg_named_args_macros/src/lib.rs`: a single-pass scanner that rewrites a SQL
template with named parameters (`$name`), column-list groups (`$[a, b]` /
`$[..]`) and fragments (`${name}`) into a positional-marker template, an
ordered list of distinct parameter names, an ordered list of fragment
occurrences, and a list of diagnostics.  The surrounding `query_args` macro
then resolves the collected names against the caller-supplied `Args` / `Sql`
struct literals.

The definitions below are a shallow embedding of that Rust code, working on
`List Char` / `String`:

* strings are lists of unicode scalar values; every byte-slice operation the
  Rust code performs (`get(..1)`, `get(..2)`, `find`) is at a character
  boundary whenever its comparison succeeds, so char-level `take`/`drop` is
  an exact translation;
* `Vec::push` / error accumulation becomes explicit state threading;
* the scan loop becomes fuel-indexed structural recursion; one unit of fuel
  is spent per `$` processed and the input shrinks by at least the `$` each
  iteration, so `length + 1` fuel always runs the loop to completion.
-/

/-- State threaded through `rewrite_query`: the output template built so far,
the deduplicated parameter `names`, the accumulated `errors` (we keep the
message strings; spans carry no information relevant to the spec), the
fragment occurrence list, and the pending column-group `batch`
(`let mut batch = None::<String>`). -/
structure ScanState where
  template : String
  names : List String
  errors : List String
  fragments : List String
  batch : Option String
deriving DecidableEq, Repr

/-- Rust's `Iterator::position`: index of the first element satisfying `p`. -/
def position (p : α → Bool) : List α → Option Nat
  | [] => none
  | x :: xs => if p x then some 0 else (position p xs).map (fun n => n + 1)

/-- The `get_idx` closure of `rewrite_query`: look an identifier up in
`names`, appending it when absent; returns the updated list and the
0-based index. -/
def get_idx (names : List String) (ident : String) : List String × Nat :=
  match position (fun x => x == ident) names with
  | some idx => (names, idx)
  | none => (names ++ [ident], names.length)

/-- `ident_char` from the source: `x.is_alphanumeric() || x == '_'`.
Rust's `char::is_alphanumeric` tests the Unicode letter/number general
categories.  We transcribe it exactly for code points up to U+00FF (ASCII
alphanumerics, the Latin-1 letters and numeric signs: ª ² ³ µ ¹ º ¼ ½ ¾ and
À–ÿ except × and ÷); higher code points — which this development never
evaluates the predicate on — are mapped to `false`. -/
def rust_is_alphanumeric (c : Char) : Bool :=
  if c.toNat < 0x80 then c.isAlphanum
  else if c.toNat ≤ 0xFF then
    c.toNat = 0xAA || c.toNat = 0xB2 || c.toNat = 0xB3 || c.toNat = 0xB5 ||
    c.toNat = 0xB9 || c.toNat = 0xBA ||
    (0xBC ≤ c.toNat && c.toNat ≤ 0xBE) ||
    (0xC0 ≤ c.toNat && c.toNat ≠ 0xD7 && c.toNat ≠ 0xF7)
  else false

/-- `fn ident_char(x: char) -> bool { x.is_alphanumeric() || x == '_' }` -/
def ident_char (x : Char) : Bool :=
  rust_is_alphanumeric x || x = '_'

/-- Rust's `char::is_ascii_whitespace`: space, horizontal tab, newline,
form feed, carriage return. -/
def is_ascii_whitespace (c : Char) : Bool :=
  c = ' ' || c = '\t' || c = '\n' || c = '\x0C' || c = '\r'

/-- The column-group capture set: `rewrite_query` captures the maximal run of
characters that are NOT hit by
`!ident_char(x) && !x.is_ascii_whitespace() && x != ',' && x != '.'`,
i.e. the characters satisfying this predicate. -/
def group_char (x : Char) : Bool :=
  ident_char x || is_ascii_whitespace x || x = ',' || x = '.'

/-- `str::trim` as applied to a column-group piece.  Rust trims Unicode
whitespace from both ends; the characters that can reach this call are
restricted by the group capture to ASCII identifier chars, ASCII whitespace,
`,` and `.`, on which Unicode whitespace coincides with
`is_ascii_whitespace`. -/
def trim_chars (l : List Char) : List Char :=
  ((l.dropWhile is_ascii_whitespace).reverse.dropWhile is_ascii_whitespace).reverse

/-- Rust `str::split(',')`: `n` commas produce `n + 1` pieces, empty pieces
included. -/
def split_comma : List Char → List (List Char)
  | [] => [[]]
  | c :: rest =>
    if c = ',' then [] :: split_comma rest
    else
      match split_comma rest with
      | [] => [[c]]
      | h :: t => (c :: h) :: t

/-- The `for column in columns.split(',')` loop of the group-definition
branch: trim each piece, diagnose empty pieces, and for non-empty pieces
assign an index via `get_idx` and push the marker `$(idx+1)` onto `out`.
Returns (updated names, errors in emission order, `out`). -/
def process_pieces : List (List Char) → List String → List String × List String × List String
  | [], names => (names, [], [])
  | piece :: rest, names =>
    let id := trim_chars piece
    if id.isEmpty then
      let r := process_pieces rest names
      (r.1, "expected identifier between all of `$[`, every `,` and final `]`" :: r.2.1, r.2.2)
    else
      let g := get_idx names (String.mk id)
      let r := process_pieces rest g.1
      (r.1, r.2.1, ("$" ++ toString (g.2 + 1)) :: r.2.2)

/-- Outcome of processing one `$`-construct: either scanning continues with a
remaining input (the loop's next iteration), or the function returns early
(the `return LitStr::new(&template, span)` statements). -/
inductive StepRes where
  | cont (rest : List Char) (st : ScanState)
  | halt (st : ScanState)
deriving DecidableEq, Repr

/-- The body of `rewrite_query`'s loop after the `$` has been consumed:
`inp0` is the input immediately following the `$`. -/
def scanStep (inp0 : List Char) (st : ScanState) : StepRes :=
  let is_fragment := inp0.take 2 = ['\x7b', '\x7b']
  let inp1 := if is_fragment then inp0.drop 2 else inp0
  let ident := inp1.takeWhile ident_char
  let inp2 := inp1.dropWhile ident_char
  if ident.isEmpty then
    if is_fragment then
      StepRes.halt { st with errors := st.errors ++ ["expected an identifer after `\x7b`"] }
    else
      match inp2 with
      | '[' :: inp3 =>
        let columns := inp3.takeWhile group_char
        match inp3.dropWhile group_char with
        | ']' :: inp4 =>
          if columns = ['.', '.'] then
            match st.batch with
            | none =>
              StepRes.cont inp4
                { st with errors := st.errors ++ ["parameter group is used, but not defined"] }
            | some cols =>
              StepRes.cont inp4 { st with template := st.template ++ cols, batch := none }
          else
            let r := process_pieces (split_comma columns) st.names
            StepRes.cont inp4
              { st with
                names := r.1
                errors := st.errors ++ r.2.1 ++
                  (if st.batch.isSome then ["previous parameter group is not used"] else [])
                batch := some (String.intercalate (", ") r.2.2)
                template := st.template ++ String.mk columns }
        | _ => StepRes.halt { st with errors := st.errors ++ ["expected closing `]`"] }
      | _ =>
        StepRes.halt { st with errors := st.errors ++ ["expected identifier or `[` after `$`"] }
  else
    if is_fragment then
      let closed := inp2.take 2 = ['\x7d', '\x7d']
      let st1 :=
        if closed then st
        else { st with errors := st.errors ++ ["fragment should end with `\x7d`"] }
      StepRes.cont (if closed then inp2.drop 2 else inp2)
        { st1 with
          fragments := st1.fragments ++ [String.mk ident]
          template := st1.template ++ ("\x7b\x7d") }
    else
      let g := get_idx st.names (String.mk ident)
      StepRes.cont inp2
        { st with names := g.1, template := st.template ++ ("$" ++ toString (g.2 + 1)) }

/-- Project the state out of a step outcome. -/
def stepState : StepRes → ScanState
  | StepRes.cont _ s => s
  | StepRes.halt s => s

/-- The scan loop of `rewrite_query`.  The fuel counts loop iterations: each
iteration consumes at least the `$` it finds, so `inp.length + 1` fuel never
hits the `0` case.  When no `$` remains, the rest is copied, the loop breaks,
and the trailing unused-group check runs; an early `return` inside the loop
(`StepRes.halt`) skips that check, exactly as in the source. -/
def scanLoop : Nat → List Char → ScanState → ScanState
  | 0, _, st => st
  | fuel + 1, inp, st =>
    let pre := inp.takeWhile (fun c => c ≠ '$')
    match inp.dropWhile (fun c => c ≠ '$') with
    | [] =>
      let st1 := { st with template := st.template ++ String.mk pre }
      if st1.batch.isSome then
        { st1 with errors := st1.errors ++ ["last parameter group is not used"] }
      else st1
    | _ :: rest =>
      match scanStep rest { st with template := st.template ++ String.mk pre } with
      | StepRes.cont rest1 st1 => scanLoop fuel rest1 st1
      | StepRes.halt st1 => st1

/-- The brace pre-escaping
`inp.value().replace("{", "{{").replace("}", "}}")`: since the first
replacement introduces no `\x7d`, the two sequential replacements equal this
single character-level map. -/
def escape_brace_char (c : Char) : List Char :=
  if c = '\x7b' then ['\x7b', '\x7b']
  else if c = '\x7d' then ['\x7d', '\x7d']
  else [c]

/-- Pre-escape a template's braces. -/
def escape_braces (s : String) : String :=
  String.mk (s.data.flatMap escape_brace_char)

/-- `rewrite_query` from the source, with the in-out `names` / `errors` /
`fragments` vectors (empty at the only call site) and the returned template
gathered into one `ScanState`. -/
def rewrite_query (inp : String) : ScanState :=
  scanLoop ((escape_braces inp).data.length + 1) (escape_braces inp).data
    { template := "", names := [], errors := [], fragments := [], batch := none }

/-! ## The resolver part of `query_args` -/

/-- `syn::Member`: a struct field key, either a named identifier (already
unrawed, as by `name.unraw()`) or a tuple index. -/
inductive Member where
  | named : String → Member
  | unnamed : Nat → Member
deriving DecidableEq, Repr

/-- One field of a parsed `ExprStruct`: member key and bound expression
(the expression type is left abstract). -/
structure FieldValue (α : Type) where
  member : Member
  expr : α
deriving DecidableEq, Repr

/-- One caller-supplied `Name { ... }` argument after the attempted
`parse2::<ExprStruct>`: `parsed = none` models a failed parse (the source
then uses no fields and raises no diagnostic); otherwise the flag records the
presence of a `..` (struct-update) token and the list holds the fields in
source order. -/
structure RawStructArg (α : Type) where
  name : String
  parsed : Option (Bool × List (FieldValue α))
deriving DecidableEq, Repr

/-- The `find_map` used for both `Args` and `Sql` lookups: the first field
whose member is a named identifier equal to `search`. -/
def find_field (fields : List (FieldValue α)) (search : String) : Option α :=
  (fields.find? (fun field =>
    match field.member with
    | Member.named n => n == search
    | Member.unnamed _ => false)).map (fun field => field.expr)

/-- `HashMap::insert` on an association list (insertion order kept; the
source's hash map orders its leftover-key iteration arbitrarily, which no
claim depends on).  Returns the updated list and whether the key was already
present. -/
def assoc_insert : List (String × β) → String → β → List (String × β) × Bool
  | [], k, v => ([(k, v)], false)
  | (k0, v0) :: rest, k, v =>
    if k0 = k then ((k0, v) :: rest, true)
    else
      let r := assoc_insert rest k v
      ((k0, v0) :: r.1, r.2)

/-- `HashMap::remove`: the removed value (if any) and the remaining map. -/
def assoc_remove : List (String × β) → String → Option β × List (String × β)
  | [], _ => (none, [])
  | (k0, v0) :: rest, key =>
    if k0 = key then (some v0, rest)
    else
      let r := assoc_remove rest key
      (r.1, (k0, v0) :: r.2)

/-- One iteration of the `for_each` over `format.args` in `query_args`:
extract the parsed fields (empty, without diagnostic, when the
`ExprStruct` parse failed), diagnose struct-update syntax, insert into the
map, and diagnose a duplicate struct name. -/
def build_arg_step (acc : List (String × List (FieldValue α)) × List String)
    (x : RawStructArg α) : List (String × List (FieldValue α)) × List String :=
  let fields := match x.parsed with
    | none => []
    | some p => p.2
  let dotErrs : List String := match x.parsed with
    | none => []
    | some p =>
      if p.1 then ["struct update syntax is not supported by the query_args macro"] else []
  let ins := assoc_insert acc.1 x.name fields
  (ins.1, acc.2 ++ dotErrs ++ (if ins.2 then ["duplicate struct name"] else []))

/-- The whole `for_each` over `format.args`: build the name-to-fields map,
accumulating diagnostics in source order. -/
def build_arg_map (structs : List (RawStructArg α)) :
    List (String × List (FieldValue α)) × List String :=
  structs.foldl build_arg_step ([], [])

/-- Result of the resolver part of `query_args`: the ordered positional
arguments (the uniform `&expr as &dyn ToSql` wrapping is elided), the
resolved fragment values (the uniform `Fragment::get` wrapping is elided),
whether the trailing `format!` substitution is applied
(`fragment_args.len() == fragments.len()`), and the diagnostics. -/
structure ResolveResult (α : Type) where
  params : List α
  fragment_args : List α
  formatted : Bool
  errors : List String
deriving DecidableEq, Repr

/-- The resolver part of `query_args` (lines 133–228 of the source): build
the struct map, take the `Args` entry and resolve `names` against it, take
the `Sql` entry and resolve `fragments` against it, decide whether the
format substitution runs, and diagnose every leftover struct name. -/
def query_args_resolve (names fragments : List String)
    (structs : List (RawStructArg α)) : ResolveResult α :=
  let built := build_arg_map structs
  let argsEntry := assoc_remove built.1 ("Args")
  let params := match argsEntry.1 with
    | some fields => names.filterMap (find_field fields)
    | none => []
  let errs1 := built.2 ++ (match argsEntry.1 with
    | some _ => []
    | none => if names.isEmpty then [] else ["expected `Args` struct"])
  let sqlEntry := assoc_remove argsEntry.2 ("Sql")
  let fragment_args := match sqlEntry.1 with
    | some fields => fragments.filterMap (find_field fields)
    | none => []
  let errs2 := errs1 ++ (match sqlEntry.1 with
    | some _ => []
    | none => if fragments.isEmpty then [] else ["expected `Sql` struct"])
  let errs3 := errs2 ++ (sqlEntry.2.map (fun kv => "unknown struct name `" ++ kv.1 ++ "`"))
  { params := params
    fragment_args := fragment_args
    formatted := fragment_args.length == fragments.length
    errors := errs3 }

/-- Modelled from the spec: the identifier character class the specification
claims for parameter names, literally `[A-Za-z0-9_]`. -/
def spec_ident_char (c : Char) : Bool :=
  ('A' ≤ c && c ≤ 'Z') || ('a' ≤ c && c ≤ 'z') || ('0' ≤ c && c ≤ '9') || c = '_'

example :
    rewrite_query ("INSERT INTO fred_flintstone(a, $[b, c])\nVALUES(true, $[..]);") =
      { template := "INSERT INTO fred_flintstone(a, b, c)\nVALUES(true, $1, $2);"
        names := ["b", "c"], errors := [], fragments := [], batch := none } := by decide

example :
    rewrite_query ("INSERT INTO fred_flintstone(a, b, c)\nVALUES(true, $b, $c);") =
      { template := "INSERT INTO fred_flintstone(a, b, c)\nVALUES(true, $1, $2);"
        names := ["b", "c"], errors := [], fragments := [], batch := none } := by decide

/-! ## Helper lemmas -/

theorem string_mk_append (a b : List Char) : String.mk a ++ String.mk b = String.mk (a ++ b) := rfl

theorem string_append_mk_nil (s : String) : s ++ String.mk [] = s := by
  cases s with
  | mk d => rw [string_mk_append, List.append_nil]

theorem takeWhile_append_cons {p : α → Bool} {l : List α} {d : α} (t : List α)
    (h : ∀ c ∈ l, p c = true) (hd : p d = false) :
    (l ++ d :: t).takeWhile p = l := by
  induction l with
  | nil => simp [hd]
  | cons a l ih =>
    have htail := ih fun c hc => h c (List.mem_cons_of_mem a hc)
    have hhead := h a (List.mem_cons_self a l)
    simp [hhead, htail]

theorem dropWhile_append_cons {p : α → Bool} {l : List α} {d : α} (t : List α)
    (h : ∀ c ∈ l, p c = true) (hd : p d = false) :
    (l ++ d :: t).dropWhile p = d :: t := by
  induction l with
  | nil => simp [hd]
  | cons a l ih =>
    have htail := ih fun c hc => h c (List.mem_cons_of_mem a hc)
    have hhead := h a (List.mem_cons_self a l)
    simp [hhead, htail]

theorem position_eq_none {p : α → Bool} : ∀ {l : List α}, position p l = none →
    ∀ x ∈ l, p x = false := by
  intro l
  induction l with
  | nil => intro _ x hx; cases hx
  | cons a l ih =>
    intro h x hx
    simp only [position] at h
    by_cases ha : p a
    · simp [ha] at h
    · rcases List.mem_cons.mp hx with rfl | hx2
      · exact Bool.eq_false_iff.mpr ha
      · exact ih (by rcases hp : position p l with _ | j <;> simp [ha, hp] at h ⊢) x hx2

theorem position_append {p : α → Bool} : ∀ {l : List α} {i : Nat},
    position p l = some i → ∀ t, position p (l ++ t) = some i := by
  intro l
  induction l with
  | nil => intro i h; cases h
  | cons a l ih =>
    intro i h t
    by_cases ha : p a
    · simp only [position, ha, if_true] at h
      simpa [position, ha] using h
    · rcases hp : position p l with _ | j
      · rw [position, hp] at h; simp [ha] at h
      · rw [position, hp] at h
        simp [ha] at h
        simp [position, ha, ih hp t, h]

theorem position_get_of_nodup : ∀ (l : List String), l.Nodup →
    ∀ (i : Nat) (h : i < l.length), position (fun x => x == l.get ⟨i, h⟩) l = some i := by
  intro l
  induction l with
  | nil => intro _ i h; cases h
  | cons a l ih =>
    intro hn i h
    cases i with
    | zero => simp [position, List.get]
    | succ j =>
      have hj : j < l.length := Nat.lt_of_succ_lt_succ h
      have hget : (a :: l).get ⟨j + 1, h⟩ = l.get ⟨j, hj⟩ := rfl
      have hmem : l.get ⟨j, hj⟩ ∈ l := l.get_mem j hj
      have hne : ¬ (a == l.get ⟨j, hj⟩) = true := by
        intro hcontra
        exact (List.nodup_cons.mp hn).1 (beq_iff_eq.mp hcontra ▸ hmem)
      simp only [position, hget, hne, if_false]
      rw [ih (List.nodup_cons.mp hn).2 j hj]
      rfl

theorem get_idx_grow (names : List String) (ident : String) :
    names <+: (get_idx names ident).1 := by
  rw [get_idx]
  rcases position (fun x => x == ident) names with _ | idx
  · exact ⟨[ident], rfl⟩
  · exact List.prefix_rfl

theorem get_idx_nodup (names : List String) (ident : String) (h : names.Nodup) :
    (get_idx names ident).1.Nodup := by
  rw [get_idx]
  rcases hp : position (fun x => x == ident) names with _ | idx
  · have hnm : ident ∉ names := by
      intro hmem
      have := position_eq_none hp ident hmem
      simp at this
    simp [List.nodup_append, h, hnm, List.disjoint_singleton]
  · exact h

theorem get_idx_eq_self {names : List String} {ident : String} {i : Nat}
    (h : get_idx names ident = (names, i)) :
    position (fun x => x == ident) names = some i := by
  rw [get_idx] at h
  rcases hp : position (fun x => x == ident) names with _ | j
  · rw [hp] at h
    have := congrArg (fun q => q.1.length) h
    simp at this
  · rw [hp] at h
    simp only [Prod.mk.injEq] at h
    rw [h.2]

theorem get_idx_stable {names big : List String} {ident : String} {i : Nat}
    (h : get_idx names ident = (names, i)) (hpre : names <+: big) :
    get_idx big ident = (big, i) := by
  obtain ⟨t, rfl⟩ := hpre
  rw [get_idx, position_append (get_idx_eq_self h) t]

theorem process_pieces_grow : ∀ (ps : List (List Char)) (names : List String),
    names <+: (process_pieces ps names).1 := by
  intro ps
  induction ps with
  | nil => intro names; exact List.prefix_rfl
  | cons p ps ih =>
    intro names
    rw [process_pieces]
    by_cases he : (trim_chars p).isEmpty
    · simpa [he] using ih names
    · simp only [he, if_false]
      exact (get_idx_grow names (String.mk (trim_chars p))).trans
        (ih (get_idx names (String.mk (trim_chars p))).1)

theorem process_pieces_nodup : ∀ (ps : List (List Char)) (names : List String),
    names.Nodup → (process_pieces ps names).1.Nodup := by
  intro ps
  induction ps with
  | nil => intro names h; exact h
  | cons p ps ih =>
    intro names h
    rw [process_pieces]
    by_cases he : (trim_chars p).isEmpty
    · simpa [he] using ih names h
    · simp only [he, if_false]
      exact ih _ (get_idx_nodup names (String.mk (trim_chars p)) h)

theorem scanStep_names_grow (inp0 : List Char) (st : ScanState) :
    st.names <+: (stepState (scanStep inp0 st)).names := by
  rw [scanStep]
  by_cases hfrag : inp0.take 2 = ['\x7b', '\x7b'] <;>
    simp only [hfrag, if_true, if_false] <;>
    split <;>
    first
      | exact List.prefix_rfl
      | (repeat' split) <;>
        simp [stepState, process_pieces_grow, get_idx_grow, List.prefix_rfl]

theorem scanStep_names_nodup (inp0 : List Char) (st : ScanState) (h : st.names.Nodup) :
    (stepState (scanStep inp0 st)).names.Nodup := by
  rw [scanStep]
  by_cases hfrag : inp0.take 2 = ['\x7b', '\x7b'] <;>
    simp only [hfrag, if_true, if_false] <;>
    split <;>
    first
      | exact h
      | (repeat' split) <;>
        simp [stepState, process_pieces_nodup, get_idx_nodup, h]

theorem scanLoop_names_grow (fuel : Nat) : ∀ (inp : List Char) (st : ScanState),
    st.names <+: (scanLoop fuel inp st).names := by
  induction fuel with
  | zero => intro inp st; exact List.prefix_rfl
  | succ n ih =>
    intro inp st
    rw [scanLoop]
    cases hdrop : inp.dropWhile (fun c => c ≠ '$') with
    | nil =>
      dsimp only
      split <;> exact List.prefix_rfl
    | cons c rest =>
      dsimp only
      have h1 := scanStep_names_grow rest
        { st with template := st.template ++ String.mk (inp.takeWhile (fun c => c ≠ '$')) }
      cases hs : scanStep rest
          { st with template := st.template ++ String.mk (inp.takeWhile (fun c => c ≠ '$')) } with
      | cont rest1 st1 =>
        rw [hs] at h1
        exact h1.trans (ih rest1 st1)
      | halt st1 =>
        rw [hs] at h1
        exact h1

theorem scanLoop_names_nodup (fuel : Nat) : ∀ (inp : List Char) (st : ScanState),
    st.names.Nodup → (scanLoop fuel inp st).names.Nodup := by
  induction fuel with
  | zero => intro inp st h; exact h
  | succ n ih =>
    intro inp st h
    rw [scanLoop]
    cases hdrop : inp.dropWhile (fun c => c ≠ '$') with
    | nil =>
      dsimp only
      split <;> exact h
    | cons c rest =>
      dsimp only
      have h1 := scanStep_names_nodup rest
        { st with template := st.template ++ String.mk (inp.takeWhile (fun c => c ≠ '$')) } h
      cases hs : scanStep rest
          { st with template := st.template ++ String.mk (inp.takeWhile (fun c => c ≠ '$')) } with
      | cont rest1 st1 =>
        rw [hs] at h1
        exact ih rest1 st1 h1
      | halt st1 =>
        rw [hs] at h1
        exact h1

theorem rewrite_query_names_nodup (t : String) : (rewrite_query t).names.Nodup := by
  rw [rewrite_query]
  exact scanLoop_names_nodup _ _ _ List.nodup_nil

/-- One loop iteration on input starting with `$`: copy nothing, hand the
tail to the per-construct step. -/
theorem scanLoop_cons_dollar (fuel : Nat) (rest : List Char) (st : ScanState) :
    scanLoop (fuel + 1) ('$' :: rest) st =
      match scanStep rest st with
      | StepRes.cont rest1 st1 => scanLoop fuel rest1 st1
      | StepRes.halt st1 => st1 := by
  rw [scanLoop]
  have htake : ('$' :: rest).takeWhile (fun c => c ≠ '$') = [] := by
    simp [List.takeWhile_cons]
  have hdrop : ('$' :: rest).dropWhile (fun c => c ≠ '$') = '$' :: rest := by
    simp [List.dropWhile_cons]
  rw [htake, hdrop]
  dsimp only
  rw [string_append_mk_nil]

/-- End of scan with no `$` left: copy the rest verbatim, then flag a still
pending group. -/
theorem scanLoop_no_dollar (fuel : Nat) (inp : List Char) (st : ScanState)
    (h : ∀ c ∈ inp, c ≠ '$') :
    scanLoop (fuel + 1) inp st =
      if st.batch.isSome then
        { st with template := st.template ++ String.mk inp
                  errors := st.errors ++ ["last parameter group is not used"] }
      else { st with template := st.template ++ String.mk inp } := by
  rw [scanLoop]
  have htake : inp.takeWhile (fun c => c ≠ '$') = inp :=
    List.takeWhile_eq_self_iff.mpr (by intro x hx; simpa using h x hx)
  have hdrop : inp.dropWhile (fun c => c ≠ '$') = [] :=
    List.dropWhile_eq_nil_iff.mpr (by intro x hx; simpa using h x hx)
  rw [htake, hdrop]

/-- A `$[..]` back-reference with no pending group: recoverable diagnostic,
nothing emitted at the site, scanning continues. -/
theorem scanStep_backref_undefined (rest : List Char) (st : ScanState)
    (h : st.batch = none) :
    scanStep ('[' :: '.' :: '.' :: ']' :: rest) st =
      StepRes.cont rest
        { st with errors := st.errors ++ ["parameter group is used, but not defined"] } := by
  cases st with
  | mk tmpl names errs frags batch =>
    dsimp only at h
    subst h
    rfl

/-- A `$[..]` back-reference with a pending group: the stored positional
list is emitted verbatim and the slot is cleared. -/
theorem scanStep_backref_consume (rest : List Char) (st : ScanState) (cols : String)
    (h : st.batch = some cols) :
    scanStep ('[' :: '.' :: '.' :: ']' :: rest) st =
      StepRes.cont rest { st with template := st.template ++ cols, batch := none } := by
  cases st with
  | mk tmpl names errs frags batch =>
    dsimp only at h
    subst h
    rfl

/-- A `$` followed by a character that neither starts an identifier nor is
`[` (nor opens a fragment): early return with one diagnostic; the whole
remainder is discarded. -/
theorem scanStep_abort_expected_ident (c : Char) (rest : List Char) (st : ScanState)
    (hfrag : (c :: rest).take 2 ≠ ['\x7b', '\x7b'])
    (hc : ident_char c = false) (hbr : c ≠ '[') :
    scanStep (c :: rest) st =
      StepRes.halt
        { st with errors := st.errors ++ ["expected identifier or `[` after `$`"] } := by
  rw [scanStep]
  simp only [hfrag, if_false, if_neg hfrag, List.takeWhile_cons, hc, Bool.false_eq_true,
    if_false, List.dropWhile_cons, List.isEmpty_nil, if_true]
  cases hcc : c with
  | mk v hv =>
    rw [← hcc]
    cases h2 : rest with
    | nil =>
      cases hc2 : decide (c = '[') with
      | true => exact absurd (of_decide_eq_true hc2) hbr
      | false => simp [show c ≠ '[' from hbr]
    | cons d rest2 => simp [show c ≠ '[' from hbr]

/-- A `$` that ends the template: same early return. -/
theorem scanStep_abort_end (st : ScanState) :
    scanStep [] st =
      StepRes.halt
        { st with errors := st.errors ++ ["expected identifier or `[` after `$`"] } := rfl

/-- A `$[` whose capture run reaches the end of the template without a
closing `]`: early return with one diagnostic, the capture is discarded. -/
theorem scanStep_abort_no_rbracket (cols : List Char) (st : ScanState)
    (h : ∀ c ∈ cols, group_char c = true) :
    scanStep ('[' :: cols) st =
      StepRes.halt { st with errors := st.errors ++ ["expected closing `]`"] } := by
  rw [scanStep]
  have htake : cols.takeWhile group_char = cols := List.takeWhile_eq_self_iff.mpr h
  have hdrop : cols.dropWhile group_char = [] := List.dropWhile_eq_nil_iff.mpr h
  have hfrag : ('[' :: cols).take 2 ≠ ['\x7b', '\x7b'] := by
    cases cols <;> simp [List.take]
  simp only [if_neg hfrag, List.takeWhile_cons, show ident_char '[' = false from rfl,
    Bool.false_eq_true, if_false, List.dropWhile_cons, List.isEmpty_nil, if_true,
    htake, hdrop]

/-- A fragment opener `${` followed by no identifier character: early return
with one diagnostic. -/
theorem scanStep_abort_fragment (rest : List Char) (st : ScanState)
    (h : rest.takeWhile ident_char = []) :
    scanStep ('\x7b' :: '\x7b' :: rest) st =
      StepRes.halt { st with errors := st.errors ++ ["expected an identifer after `\x7b`"] } := by
  rw [scanStep]
  simp [List.take, List.drop, h]

/-- A `$[` group whose captured text is anything other than exactly `..`
defines a group: pieces are split on `,`, trimmed, diagnosed or indexed, the
raw captured text is emitted, and the new group replaces (with a diagnostic)
any still-pending one. -/
theorem scanStep_define (cols rest : List Char) (st : ScanState)
    (h : ∀ c ∈ cols, group_char c = true) (hne : cols ≠ ['.', '.']) :
    scanStep ('[' :: (cols ++ ']' :: rest)) st =
      StepRes.cont rest
        { st with
          names := (process_pieces (split_comma cols) st.names).1
          errors := st.errors ++ (process_pieces (split_comma cols) st.names).2.1 ++
            (if st.batch.isSome then ["previous parameter group is not used"] else [])
          batch := some (String.intercalate (", ")
            (process_pieces (split_comma cols) st.names).2.2)
          template := st.template ++ String.mk cols } := by
  rw [scanStep]
  have htake : (cols ++ ']' :: rest).takeWhile group_char = cols :=
    takeWhile_append_cons rest h rfl
  have hdrop : (cols ++ ']' :: rest).dropWhile group_char = ']' :: rest :=
    dropWhile_append_cons rest h rfl
  have hfrag : ('[' :: (cols ++ ']' :: rest)).take 2 ≠ ['\x7b', '\x7b'] := by
    cases cols <;> simp [List.take]
  simp only [if_neg hfrag, List.takeWhile_cons, show ident_char '[' = false from rfl,
    Bool.false_eq_true, if_false, List.dropWhile_cons, List.isEmpty_nil, if_true,
    htake, hdrop, if_neg hne]

/-- A well-formed fragment `${ident}`: the name is appended to the fragment
occurrence list (no deduplication), one `\x7b\x7d` hole is emitted, scanning
continues after the closing brace. -/
theorem scanStep_fragment (ident rest : List Char) (st : ScanState)
    (hne : ident ≠ []) (h : ∀ c ∈ ident, ident_char c = true) :
    scanStep ('\x7b' :: '\x7b' :: (ident ++ '\x7d' :: '\x7d' :: rest)) st =
      StepRes.cont rest
        { st with
          fragments := st.fragments ++ [String.mk ident]
          template := st.template ++ ("\x7b\x7d") } := by
  rw [scanStep]
  have htake : (ident ++ '\x7d' :: '\x7d' :: rest).takeWhile ident_char = ident :=
    takeWhile_append_cons _ h rfl
  have hdrop : (ident ++ '\x7d' :: '\x7d' :: rest).dropWhile ident_char = '\x7d' :: '\x7d' :: rest :=
    dropWhile_append_cons _ h rfl
  have hemp : ident.isEmpty = false := by
    cases ident with
    | nil => exact absurd rfl hne
    | cons a l => rfl
  simp only [List.take, List.drop, if_true, htake, hdrop, hemp, Bool.false_eq_true, if_false]

theorem filterMap_all_some {α β : Type} {f : α → Option β} : ∀ (l : List α),
    (∀ x ∈ l, (f x).isSome) →
    (l.filterMap f).length = l.length ∧ ∀ i : Nat, (l.filterMap f)[i]? = (l[i]?).bind f := by
  intro l
  induction l with
  | nil => intro _; exact ⟨rfl, fun i => by simp⟩
  | cons x l ih =>
    intro h
    obtain ⟨v, hv⟩ := Option.isSome_iff_exists.mp (h x (by simp))
    obtain ⟨ihlen, ihidx⟩ := ih (fun y hy => h y (by simp [hy]))
    rw [List.filterMap_cons, hv]
    refine ⟨by simp [ihlen], ?_⟩
    intro i
    cases i with
    | zero => simp [hv]
    | succ j => simpa using ihidx j

theorem filterMap_length_iff {α β : Type} {f : α → Option β} : ∀ {l : List α},
    (l.filterMap f).length = l.length ↔ ∀ x ∈ l, (f x).isSome := by
  intro l
  constructor
  · induction l with
    | nil => intro _ x hx; cases hx
    | cons a l ih =>
      intro h x hx
      rw [List.filterMap_cons] at h
      cases ha : f a with
      | none =>
        rw [ha] at h
        simp only [List.length_cons] at h
        have hle := List.length_filterMap_le f l
        omega
      | some v =>
        rw [ha] at h
        simp only [List.length_cons] at h
        rcases List.mem_cons.mp hx with rfl | hx2
        · simp [ha]
        · exact ih (by omega) x hx2
  · intro h
    exact (filterMap_all_some l h).1

/-- Resolving with exactly one `Args { fields }` struct: the positional
arguments are `names` resolved, in `names` order, against the fields. -/
theorem resolve_args_params {α : Type} (names fragments : List String)
    (fields : List (FieldValue α)) :
    (query_args_resolve names fragments [⟨"Args", some (false, fields)⟩]).params
      = names.filterMap (find_field fields) := rfl

/-! ## Claim theorems -/

/-- C1: for every template and an `Args` record that contains a field of the
exact name of every entry of the scanner's names list, the resolver's
ordered argument sequence has one entry per name, the entry at position
`i - 1` (0-based `i`) is the expression the record binds to `names[i-1]`,
and the scanner assigned exactly the positional marker `$i` to that name
(`get_idx` returns index `i - 1` for it against the final names list). -/
theorem claim1_resolver_alignment {α : Type} (t : String) (fields : List (FieldValue α))
    (hcov : ∀ name ∈ (rewrite_query t).names, (find_field fields name).isSome) :
    (query_args_resolve (rewrite_query t).names (rewrite_query t).fragments
        [⟨"Args", some (false, fields)⟩]).params.length = (rewrite_query t).names.length ∧
    ∀ (i : Nat) (h : i < (rewrite_query t).names.length),
      (query_args_resolve (rewrite_query t).names (rewrite_query t).fragments
          [⟨"Args", some (false, fields)⟩]).params[i]?
        = find_field fields ((rewrite_query t).names.get ⟨i, h⟩) ∧
      get_idx (rewrite_query t).names ((rewrite_query t).names.get ⟨i, h⟩)
        = ((rewrite_query t).names, i) := by
  obtain ⟨hlen, hidx⟩ := @filterMap_all_some _ _ (find_field fields) (rewrite_query t).names hcov
  rw [resolve_args_params]
  refine ⟨hlen, ?_⟩
  intro i h
  constructor
  · rw [hidx i, List.getElem?_eq_getElem h]
    rfl
  · have hp := position_get_of_nodup (rewrite_query t).names (rewrite_query_names_nodup t) i h
    rw [get_idx, hp]

/-- Witness for C1: template `$a $b` with a complete two-field record. -/
theorem claim1_resolver_alignment_witness :
    (query_args_resolve (rewrite_query ("$a $b")).names (rewrite_query ("$a $b")).fragments
        [⟨"Args", some (false, [⟨Member.named ("a"), "xa"⟩, ⟨Member.named ("b"), "xb"⟩])⟩]).params.length
      = (rewrite_query ("$a $b")).names.length :=
  (claim1_resolver_alignment ("$a $b")
    [⟨Member.named ("a"), "xa"⟩, ⟨Member.named ("b"), "xb"⟩] (by decide)).1

/-- C2: the scanner's names list has exactly one entry per distinct name
(`Nodup`), the marker index assigned to the name sitting at position `i` of
the final list is exactly `i` (so the emitted marker is `$(i+1)`, the
1-based first-occurrence index), the names list only ever grows by appending
during a scan (so first occurrences determine positions), and an index once
assigned to a name is returned unchanged by every later lookup (every
recurrence of a name rewrites to the same marker). -/
theorem claim2_first_occurrence_markers (t : String) :
    (rewrite_query t).names.Nodup ∧
    (∀ (i : Nat) (h : i < (rewrite_query t).names.length),
        get_idx (rewrite_query t).names ((rewrite_query t).names.get ⟨i, h⟩)
          = ((rewrite_query t).names, i)) ∧
    (∀ (fuel : Nat) (inp : List Char) (st : ScanState),
        st.names <+: (scanLoop fuel inp st).names) ∧
    (∀ (fuel : Nat) (inp : List Char) (st : ScanState) (ident : String) (i : Nat),
        get_idx st.names ident = (st.names, i) →
        get_idx (scanLoop fuel inp st).names ident = ((scanLoop fuel inp st).names, i)) := by
  refine ⟨rewrite_query_names_nodup t, ?_, scanLoop_names_grow, ?_⟩
  · intro i h
    have hp := position_get_of_nodup (rewrite_query t).names (rewrite_query_names_nodup t) i h
    rw [get_idx, hp]
  · intro fuel inp st ident i hi
    exact get_idx_stable hi (scanLoop_names_grow fuel inp st)

/-- Witness for C2: in `$a $b $a` the name at position 1 of the final list
(`b`) is assigned marker index 1. -/
theorem claim2_first_occurrence_markers_witness :
    get_idx (rewrite_query ("$a $b $a")).names
        ((rewrite_query ("$a $b $a")).names.get ⟨1, by decide⟩)
      = ((rewrite_query ("$a $b $a")).names, 1) :=
  (claim2_first_occurrence_markers ("$a $b $a")).2.1 1 (by decide)

/-- C3 counterexample: the claimed byte-for-byte equivalence between a
group definition plus `$[..]` and the hand-written plain-reference form does
NOT hold for every template.  A group assigns indices at its definition
site, a plain reference at its occurrence site, so a new name first
occurring between the two (here `$a`) shifts the numbering: the group form
yields `$3, $1, $2` where the plain form yields `$1, $2, $3`. -/
theorem claim3_group_vs_plain_counterexample :
    (rewrite_query ("INSERT INTO t(x, $[b, c]) VALUES($a, $[..]);")).template
        = "INSERT INTO t(x, b, c) VALUES($3, $1, $2);" ∧
    (rewrite_query ("INSERT INTO t(x, b, c) VALUES($a, $b, $c);")).template
        = "INSERT INTO t(x, b, c) VALUES($1, $2, $3);" ∧
    (rewrite_query ("INSERT INTO t(x, $[b, c]) VALUES($a, $[..]);")).template
        ≠ (rewrite_query ("INSERT INTO t(x, b, c) VALUES($a, $b, $c);")).template := by
  decide

/-- C3 amended: the spec's concrete instance of the equivalence. Both
`INSERT INTO t(x, $[b, c]) VALUES(true, $[..]);` and
`INSERT INTO t(x, b, c) VALUES(true, $b, $c);` rewrite, without
diagnostics, to `INSERT INTO t(x, b, c) VALUES(true, $1, $2);` with names
`[b, c]`; the general byte-for-byte law requires that no parameter name
first occur between the group definition and the back-reference. -/
theorem claim3_group_vs_plain_example :
    rewrite_query ("INSERT INTO t(x, $[b, c]) VALUES(true, $[..]);")
      = { template := "INSERT INTO t(x, b, c) VALUES(true, $1, $2);"
          names := ["b", "c"], errors := [], fragments := [], batch := none } ∧
    rewrite_query ("INSERT INTO t(x, b, c) VALUES(true, $b, $c);")
      = { template := "INSERT INTO t(x, b, c) VALUES(true, $1, $2);"
          names := ["b", "c"], errors := [], fragments := [], batch := none } := by
  decide

/-- C4: the pending-group slot (`batch : Option String`) holds at most one
group by construction, and its lifecycle diagnostics are exactly: a group
still pending when the loop ends yields `last parameter group is not used`;
a `$[..]` with no pending group yields `parameter group is used, but not
defined`, continues scanning and emits nothing at the site; defining a group
while one is pending yields `previous parameter group is not used`,
continues, and the new group replaces the old as pending; a consumed group
clears the slot.  The last three conjuncts exhibit each diagnostic on a
complete template. -/
theorem claim4_pending_group_lifecycle :
    (∀ (fuel : Nat) (st : ScanState),
        scanLoop (fuel + 1) [] st =
          if st.batch.isSome then
            { st with errors := st.errors ++ ["last parameter group is not used"] }
          else st) ∧
    (∀ (rest : List Char) (st : ScanState), st.batch = none →
        scanStep ('[' :: '.' :: '.' :: ']' :: rest) st =
          StepRes.cont rest
            { st with errors := st.errors ++ ["parameter group is used, but not defined"] }) ∧
    (∀ (rest : List Char) (st : ScanState) (cols : String), st.batch = some cols →
        scanStep ('[' :: '.' :: '.' :: ']' :: rest) st =
          StepRes.cont rest { st with template := st.template ++ cols, batch := none }) ∧
    (∀ (cols rest : List Char) (st : ScanState) (g : String),
        st.batch = some g → (∀ c ∈ cols, group_char c = true) → cols ≠ ['.', '.'] →
        scanStep ('[' :: (cols ++ ']' :: rest)) st =
          StepRes.cont rest
            { st with
              names := (process_pieces (split_comma cols) st.names).1
              errors := st.errors ++ (process_pieces (split_comma cols) st.names).2.1 ++
                ["previous parameter group is not used"]
              batch := some (String.intercalate (", ")
                (process_pieces (split_comma cols) st.names).2.2)
              template := st.template ++ String.mk cols }) ∧
    rewrite_query ("$[a], $[b] $[..]")
      = { template := "a, b $2", names := ["a", "b"]
          errors := ["previous parameter group is not used"]
          fragments := [], batch := none } ∧
    rewrite_query ("$[a] $[..] $[..]")
      = { template := "a $1 ", names := ["a"]
          errors := ["parameter group is used, but not defined"]
          fragments := [], batch := none } ∧
    rewrite_query ("$[a]")
      = { template := "a", names := ["a"]
          errors := ["last parameter group is not used"]
          fragments := [], batch := some ("$1") } := by
  refine ⟨?_, ?_, ?_, ?_, by decide, by decide, by decide⟩
  · intro fuel st
    rw [scanLoop_no_dollar fuel [] st (by intro c hc; cases hc), string_append_mk_nil]
  · intro rest st h
    exact scanStep_backref_undefined rest st h
  · intro rest st cols h
    exact scanStep_backref_consume rest st cols h
  · intro cols rest st g hb hcols hne
    rw [scanStep_define cols rest st hcols hne, hb]
    rfl

/-- Witness for C4: the `$[..]`-with-no-group and `$[..]`-consumes-group
branches at concrete states. -/
theorem claim4_pending_group_lifecycle_witness :
    scanStep ('[' :: '.' :: '.' :: ']' :: []) ⟨"", [], [], [], none⟩
      = StepRes.cont [] ⟨"", [], ["parameter group is used, but not defined"], [], none⟩ ∧
    scanStep ('[' :: '.' :: '.' :: ']' :: []) ⟨"T", [], [], [], some ("$1")⟩
      = StepRes.cont [] ⟨"T$1", [], [], [], none⟩ := by
  constructor
  · have h := claim4_pending_group_lifecycle.2.1 [] ⟨"", [], [], [], none⟩ rfl
    simpa using h
  · have h := claim4_pending_group_lifecycle.2.2.1 [] ⟨"T", [], [], [], some ("$1")⟩ ("$1") rfl
    simpa using h

/-- C5: the three early-abort conditions — a character after `$` that is
neither an identifier character nor `[` (including `$` at end of input), a
`$[` capture that never finds its closing `]`, and a fragment opener with no
identifier — each stop scanning at once: the state (with the template built
so far) is returned with exactly one new diagnostic and the entire remainder
(`rest`/`cols`) is discarded, so no further diagnostics can arise.  The spec
example `$[one, two, three` yields exactly the single diagnostic
`expected closing ]` and an empty template. -/
theorem claim5_early_abort :
    (∀ (c : Char) (rest : List Char) (st : ScanState),
        (c :: rest).take 2 ≠ ['\x7b', '\x7b'] → ident_char c = false → c ≠ '[' →
        scanStep (c :: rest) st =
          StepRes.halt
            { st with errors := st.errors ++ ["expected identifier or `[` after `$`"] }) ∧
    (∀ st : ScanState,
        scanStep [] st =
          StepRes.halt
            { st with errors := st.errors ++ ["expected identifier or `[` after `$`"] }) ∧
    (∀ (cols : List Char) (st : ScanState), (∀ c ∈ cols, group_char c = true) →
        scanStep ('[' :: cols) st =
          StepRes.halt { st with errors := st.errors ++ ["expected closing `]`"] }) ∧
    (∀ (rest : List Char) (st : ScanState), rest.takeWhile ident_char = [] →
        scanStep ('\x7b' :: '\x7b' :: rest) st =
          StepRes.halt
            { st with errors := st.errors ++ ["expected an identifer after `\x7b`"] }) ∧
    rewrite_query ("$[one, two, three")
      = { template := "", names := [], errors := ["expected closing `]`"]
          fragments := [], batch := none } := by
  exact ⟨scanStep_abort_expected_ident, scanStep_abort_end, scanStep_abort_no_rbracket,
    scanStep_abort_fragment, by decide⟩

/-- Witness for C5: each abort branch at a concrete input. -/
theorem claim5_early_abort_witness :
    scanStep (' ' :: []) ⟨"pre", [], [], [], none⟩
      = StepRes.halt ⟨"pre", [], ["expected identifier or `[` after `$`"], [], none⟩ ∧
    scanStep ('[' :: ('o' :: 'n' :: 'e' :: [])) ⟨"", [], [], [], none⟩
      = StepRes.halt ⟨"", [], ["expected closing `]`"], [], none⟩ ∧
    scanStep ('\x7b' :: '\x7b' :: []) ⟨"", [], [], [], none⟩
      = StepRes.halt ⟨"", [], ["expected an identifer after `\x7b`"], [], none⟩ := by
  refine ⟨?_, ?_, ?_⟩
  · have h := claim5_early_abort.1 ' ' [] ⟨"pre", [], [], [], none⟩ (by decide) (by decide)
      (by decide)
    simpa using h
  · have h := claim5_early_abort.2.2.1 ('o' :: 'n' :: 'e' :: []) ⟨"", [], [], [], none⟩
      (by decide)
    simpa using h
  · have h := claim5_early_abort.2.2.2.1 [] ⟨"", [], [], [], none⟩ (by decide)
    simpa using h

/-- Any diagnostic raised while building the struct map survives into the
resolver's final error list. -/
theorem resolve_errors_mono {α : Type} (names fragments : List String)
    (structs : List (RawStructArg α)) (e : String)
    (h : e ∈ (build_arg_map structs).2) :
    e ∈ (query_args_resolve names fragments structs).errors := by
  rw [query_args_resolve]
  dsimp only
  exact List.mem_append_left _ (List.mem_append_left _ (List.mem_append_left _ h))

theorem assoc_insert_keeps_keys {β : Type} : ∀ (m : List (String × β)) (k : String) (v : β)
    (k' : String), (∀ kv ∈ m, kv.1 ≠ k') → k ≠ k' →
    ∀ kv ∈ (assoc_insert m k v).1, kv.1 ≠ k' := by
  intro m
  induction m with
  | nil =>
    intro k v k' _ hk kv hkv
    rw [assoc_insert] at hkv
    rw [List.mem_singleton.mp hkv]
    exact hk
  | cons a m ih =>
    intro k v k' hm hk kv hkv
    rw [assoc_insert] at hkv
    by_cases hak : a.1 = k
    · rw [if_pos hak] at hkv
      dsimp only at hkv
      rcases List.mem_cons.mp hkv with heq | h2
      · rw [heq]
        intro hc
        refine hk ?_
        rw [← hak]
        exact hc
      · exact hm kv (List.mem_cons_of_mem a h2)
    · rw [if_neg hak] at hkv
      dsimp only at hkv
      rcases List.mem_cons.mp hkv with heq | h2
      · rw [heq]
        exact hm a (List.mem_cons_self a m)
      · exact ih k v k' (fun x hx => hm x (List.mem_cons_of_mem a hx)) hk kv h2

theorem build_arg_map_no_key {α : Type} (k : String) : ∀ (structs : List (RawStructArg α))
    (acc : List (String × List (FieldValue α)) × List String),
    (∀ s ∈ structs, s.name ≠ k) → (∀ kv ∈ acc.1, kv.1 ≠ k) →
    ∀ kv ∈ (structs.foldl build_arg_step acc).1, kv.1 ≠ k := by
  intro structs
  induction structs with
  | nil => intro acc _ hacc kv hkv; exact hacc kv hkv
  | cons s structs ih =>
    intro acc hs hacc kv hkv
    rw [List.foldl_cons] at hkv
    refine ih _ (fun x hx => hs x (by simp [hx])) ?_ kv hkv
    show ∀ kv ∈ (build_arg_step acc s).1, kv.1 ≠ k
    rw [build_arg_step]
    exact assoc_insert_keeps_keys acc.1 s.name _ k hacc (hs s (by simp))

theorem assoc_remove_absent {β : Type} : ∀ (m : List (String × β)) (k : String),
    (∀ kv ∈ m, kv.1 ≠ k) → assoc_remove m k = (none, m) := by
  intro m
  induction m with
  | nil => intro k _; rfl
  | cons a m ih =>
    intro k h
    rw [assoc_remove]
    have ha : ¬ a.1 = k := h a (by simp)
    simp only [ha, if_false, ih k (fun x hx => h x (by simp [hx]))]

/-- C6: resolver role errors.  (1) If no struct is declared under the name
`Args` while the names list is non-empty, the `expected Args struct`
diagnostic is raised.  (2) Two structs declared under the same name raise
`duplicate struct name`.  (3) A struct under a name that is neither `Args`
nor `Sql` raises exactly `unknown struct name <name>`.  (4) Struct-update
(`..`) syntax raises its dedicated diagnostic.  (5) A surplus field (`zzz`)
not in the names list is no error at this layer: resolution succeeds with no
diagnostics. -/
theorem claim6_record_role_errors :
    (∀ (α : Type) (names fragments : List String) (structs : List (RawStructArg α)),
        names ≠ [] → (∀ s ∈ structs, s.name ≠ "Args") →
        ("expected `Args` struct") ∈
          (query_args_resolve names fragments structs).errors) ∧
    (∀ (α : Type) (names fragments : List String) (s1 s2 : RawStructArg α),
        s1.name = s2.name →
        "duplicate struct name" ∈ (query_args_resolve names fragments [s1, s2]).errors) ∧
    (∀ (α : Type) (n : String) (fields : List (FieldValue α)), n ≠ "Args" → n ≠ "Sql" →
        (query_args_resolve [] [] [⟨n, some (false, fields)⟩]).errors
          = ["unknown struct name `" ++ n ++ "`"]) ∧
    (∀ (α : Type) (names fragments : List String) (n : String) (fields : List (FieldValue α)),
        "struct update syntax is not supported by the query_args macro" ∈
          (query_args_resolve names fragments [⟨n, some (true, fields)⟩]).errors) ∧
    (∀ (v w : String),
        query_args_resolve ["a"] [] [⟨"Args", some (false,
            [⟨Member.named ("a"), v⟩, ⟨Member.named ("zzz"), w⟩])⟩]
          = { params := [v], fragment_args := [], formatted := true, errors := [] }) := by
  refine ⟨?_, ?_, ?_, ?_, ?_⟩
  · intro α names fragments structs hne hno
    have h0 : names.isEmpty = false := by
      cases names with
      | nil => exact absurd rfl hne
      | cons a l => rfl
    have hrm : assoc_remove (build_arg_map structs).1 ("Args")
        = (none, (build_arg_map structs).1) :=
      assoc_remove_absent _ _
        (build_arg_map_no_key ("Args") structs ([], []) hno (by intro kv h; cases h))
    rw [query_args_resolve]
    simp [hrm, h0, List.mem_append]
  · intro α names fragments s1 s2 h
    apply resolve_errors_mono
    cases s1 with
    | mk n1 p1 =>
      cases s2 with
      | mk n2 p2 =>
        dsimp only at h
        subst h
        rw [build_arg_map]
        simp [build_arg_step, assoc_insert]
  · intro α n fields hA hS
    simp [query_args_resolve, build_arg_map, build_arg_step, assoc_insert, assoc_remove, hA, hS]
  · intro α names fragments n fields
    apply resolve_errors_mono
    rw [build_arg_map]
    simp [build_arg_step, assoc_insert]
  · intro v w
    rfl

/-- Witness for C6 at concrete inputs. -/
theorem claim6_record_role_errors_witness :
    ("expected `Args` struct") ∈
      (query_args_resolve ["a"] []
        [(⟨"Sql", some (false, [])⟩ : RawStructArg Unit)]).errors ∧
    "duplicate struct name" ∈
      (query_args_resolve [] [] [(⟨"Args", some (false, [])⟩ : RawStructArg Unit),
        ⟨"Args", some (false, [])⟩]).errors ∧
    (query_args_resolve [] [] [(⟨"Typo", some (false, [])⟩ : RawStructArg Unit)]).errors
      = ["unknown struct name `Typo`"] ∧
    "struct update syntax is not supported by the query_args macro" ∈
      (query_args_resolve [] [] [(⟨"Args", some (true, [])⟩ : RawStructArg Unit)]).errors ∧
    query_args_resolve ["a"] [] [⟨"Args", some (false,
        [⟨Member.named ("a"), "va"⟩, ⟨Member.named ("zzz"), "vz"⟩])⟩]
      = { params := ["va"], fragment_args := [], formatted := true, errors := [] } := by
  refine ⟨?_, ?_, ?_, ?_, ?_⟩
  · exact claim6_record_role_errors.1 Unit ["a"] [] [⟨"Sql", some (false, [])⟩]
      (by decide) (by intro s hs; simp at hs; rw [hs]; decide)
  · exact claim6_record_role_errors.2.1 Unit [] [] ⟨"Args", some (false, [])⟩
      ⟨"Args", some (false, [])⟩ rfl
  · have h := claim6_record_role_errors.2.2.1 Unit ("Typo") [] (by decide) (by decide)
    simpa using h
  · exact claim6_record_role_errors.2.2.2.1 Unit [] [] ("Args") []
  · exact claim6_record_role_errors.2.2.2.2 ("va") ("vz")

/-- C7 counterexample: identifier scanning does NOT accept exactly
`[A-Za-z0-9_]`.  The source tests Rust's Unicode `char::is_alphanumeric`, so
`é` (U+00E9, a Unicode letter outside the claimed class) is an identifier
character, and the template `$é` scans `é` as a parameter name instead of
aborting with `expected identifier or [ after $`. -/
theorem claim7_ident_class_counterexample :
    ident_char 'é' = true ∧ spec_ident_char 'é' = false ∧
    rewrite_query ("$é")
      = { template := "$1", names := ["é"], errors := [], fragments := [], batch := none } := by
  decide

/-- C7 amended: identifier scanning after `$` accepts a maximal run of
characters satisfying Rust's Unicode `char::is_alphanumeric` or `_` — a
proper superset of `[A-Za-z0-9_]` (for example `é` is accepted) that
coincides with `[A-Za-z0-9_]` on the ASCII range; names are case-sensitive
and deduplicated by exact string equality, so `Name` and `name` are distinct
parameters with distinct positional markers. -/
theorem claim7_ident_class_amended :
    (∀ n : Nat, n < 128 → ident_char (Char.ofNat n) = spec_ident_char (Char.ofNat n)) ∧
    ident_char 'é' = true ∧ spec_ident_char 'é' = false ∧
    rewrite_query ("$Name $name")
      = { template := "$1 $2", names := ["Name", "name"], errors := [], fragments := []
          batch := none } := by
  refine ⟨by decide, by decide, by decide, by decide⟩

/-- Witness for C7 (amended): the ASCII agreement at `A` (code point 65). -/
theorem claim7_ident_class_amended_witness :
    ident_char (Char.ofNat 65) = spec_ident_char (Char.ofNat 65) :=
  claim7_ident_class_amended.1 65 (by decide)

/-- C8: fragments are never deduplicated — `${a} ${a} ${b}` records three
occurrence slots in left-to-right order and emits three holes; in general
each well-formed `${ident}` occurrence appends exactly one entry to the
fragment list and one brace-pair hole to the template; and the resolver
performs the trailing format substitution iff every fragment occurrence
resolved, i.e. iff the resolved count equals the occurrence count. -/
theorem claim8_fragments_no_dedup :
    (rewrite_query ("${a} ${a} ${b}")
      = { template := "\x7b\x7d \x7b\x7d \x7b\x7d", names := [], errors := []
          fragments := ["a", "a", "b"], batch := none }) ∧
    (∀ (ident rest : List Char) (st : ScanState),
        ident ≠ [] → (∀ c ∈ ident, ident_char c = true) →
        scanStep ('\x7b' :: '\x7b' :: (ident ++ '\x7d' :: '\x7d' :: rest)) st =
          StepRes.cont rest
            { st with fragments := st.fragments ++ [String.mk ident]
                      template := st.template ++ ("\x7b\x7d") }) ∧
    (∀ (names fragments : List String) (fields : List (FieldValue String)),
        (query_args_resolve names fragments [⟨"Sql", some (false, fields)⟩]).formatted = true
          ↔ ∀ f ∈ fragments, (find_field fields f).isSome) := by
  refine ⟨by decide, scanStep_fragment, ?_⟩
  intro names fragments fields
  show ((fragments.filterMap (find_field fields)).length == fragments.length) = true ↔ _
  rw [beq_iff_eq]
  exact filterMap_length_iff

/-- Witness for C8: one fragment occurrence `${a}` at a concrete state, and
the formatted-iff condition at a concrete record. -/
theorem claim8_fragments_no_dedup_witness :
    scanStep ('\x7b' :: '\x7b' :: ('a' :: '\x7d' :: '\x7d' :: [])) ⟨"", [], [], [], none⟩
      = StepRes.cont [] ⟨"\x7b\x7d", [], [], ["a"], none⟩ ∧
    (query_args_resolve [] ["a", "a"] [⟨"Sql", some (false,
        [⟨Member.named ("a"), "frag"⟩])⟩]).formatted = true := by
  constructor
  · have h := claim8_fragments_no_dedup.2.1 ['a'] [] ⟨"", [], [], [], none⟩ (by decide)
      (by decide)
    simpa using h
  · exact (claim8_fragments_no_dedup.2.2 [] ["a", "a"]
      [⟨Member.named ("a"), "frag"⟩]).mpr (by decide)

/-- C9 counterexample: scanning the template `$[one, two,]` on its own does
NOT yield exactly one diagnostic — the empty trimmed piece raises the
expected-identifier diagnostic, and since the defined group is then never
consumed, end-of-scan adds `last parameter group is not used`, for two
diagnostics in total. -/
theorem claim9_trailing_comma_counterexample :
    rewrite_query ("$[one, two,]")
      = { template := "one, two,", names := ["one", "two"]
          errors := ["expected identifier between all of `$[`, every `,` and final `]`",
            "last parameter group is not used"]
          fragments := [], batch := some ("$1, $2") } := by
  decide

/-- C9 amended: the trailing comma of `$[one, two,]` produces one empty
trimmed entry whose diagnostic is recoverable: scanning completes, the
non-empty pieces `one`, `two` are still assigned parameter indices 1 and 2
and are included in the pending group's positional list `$1, $2`.  Scanning
the standalone template additionally reports the group itself as unused
(two diagnostics, as proved above); inside a template that consumes the
group with `$[..]`, exactly the one empty-piece diagnostic results. -/
theorem claim9_trailing_comma_amended :
    rewrite_query ("INSERT INTO t($[one, two,]) VALUES($[..]);")
      = { template := "INSERT INTO t(one, two,) VALUES($1, $2);"
          names := ["one", "two"]
          errors := ["expected identifier between all of `$[`, every `,` and final `]`"]
          fragments := [], batch := none } := by
  decide

/-- C10: back-reference detection compares the raw captured text against the
two-character string `..` exactly, before any trimming: with a pending group
the capture `..` consumes it, without one it raises the undefined
diagnostic, and any other capture — including the whitespace-padded
`$[ .. ]` — defines a group instead; concretely `$[ .. ] $[..]` registers
the trimmed piece `..` as a parameter name with marker `$1`. -/
theorem claim10_backref_exact_match :
    (∀ (rest : List Char) (st : ScanState) (cols : String), st.batch = some cols →
        scanStep ('[' :: '.' :: '.' :: ']' :: rest) st =
          StepRes.cont rest { st with template := st.template ++ cols, batch := none }) ∧
    (∀ (rest : List Char) (st : ScanState), st.batch = none →
        scanStep ('[' :: '.' :: '.' :: ']' :: rest) st =
          StepRes.cont rest
            { st with errors := st.errors ++ ["parameter group is used, but not defined"] }) ∧
    (∀ (cols rest : List Char) (st : ScanState),
        (∀ c ∈ cols, group_char c = true) → cols ≠ ['.', '.'] →
        scanStep ('[' :: (cols ++ ']' :: rest)) st =
          StepRes.cont rest
            { st with
              names := (process_pieces (split_comma cols) st.names).1
              errors := st.errors ++ (process_pieces (split_comma cols) st.names).2.1 ++
                (if st.batch.isSome then ["previous parameter group is not used"] else [])
              batch := some (String.intercalate (", ")
                (process_pieces (split_comma cols) st.names).2.2)
              template := st.template ++ String.mk cols }) ∧
    rewrite_query ("$[ .. ] $[..]")
      = { template := " ..  $1", names := [".."], errors := [], fragments := []
          batch := none } := by
  exact ⟨scanStep_backref_consume, scanStep_backref_undefined, scanStep_define, by decide⟩

/-- Witness for C10: the whitespace-padded capture ` .. ` goes through the
group-definition branch at a concrete state. -/
theorem claim10_backref_exact_match_witness :
    scanStep ('[' :: (' ' :: '.' :: '.' :: ' ' :: []) ++ ']' :: []) ⟨"", [], [], [], none⟩
      = StepRes.cont []
          ⟨" .. ", [".."], [], [], some ("$1")⟩ := by
  have h := claim10_backref_exact_match.2.2.1 (' ' :: '.' :: '.' :: ' ' :: []) []
    ⟨"", [], [], [], none⟩ (by decide) (by decide)
  simpa using h
